import Mathlib

set_option maxRecDepth 40000

/-!
Verification of the TreeIntrospector specification against the repository
`file-format` (didactic Python scripts for data-interchange formats).

The embedded code is:
 - `analizar_estructura_json` from `src/ejemplos/03_json/procesar_json.py`
   (the recursive structure walker the spec calls `describe`);
 - `xml_to_dict` from `src/ejemplos/01_xml/procesar_xml.py`, including its
   inline duplicate-tag coalescing loop (the spec calls it
   `coalesceDuplicateKeys`);
 - a `flatten` operation modelled from the spec, because no generic
   flattening function exists in the repository sources
   (`json_nested_to_flat` hardcodes field extraction for one sample file).

Python values that the walker can meet are modelled by the closed type
`Node`: any Python value that is neither a `dict` nor a `list` lands in the
`scalar` constructor, which carries the Python type name (`type(v).__name__`)
and the rendering `repr(v)` — this includes "unrecognized" values such as
sets or arbitrary objects, since the Python code only ever tests
`isinstance(v, dict)` and `isinstance(v, list)`.
-/

/-- A semi-structured tree value as seen by the Python walkers: a `dict`
(ordered key/value pairs), a `list`, or any other Python value, carried with
its type name and its `repr` string. -/
inductive Node where
  | scalar (kind : String) (rep : String)
  | mapping (entries : List (String × Node))
  | sequence (elems : List Node)

/-- Python `type(v).__name__` as the walker prints it: `dict` for mappings,
`list` for sequences, and the stored type name for everything else. -/
def typeName : Node → String
  | .scalar k _ => k
  | .mapping _ => "dict"
  | .sequence _ => "list"

/-- Python `len(v)` for dict/list values (`tamaño` in the report lines). -/
def nodeSize : Node → Nat
  | .scalar _ _ => 0
  | .mapping entries => entries.length
  | .sequence elems => elems.length

mutual
/-- Embedding of `analizar_estructura_json(datos, prefijo, max_profundidad)`
(src/ejemplos/03_json/procesar_json.py, lines 48-78).  The returned list
holds the printed report lines in order.  The depth argument is an `Int`
because the Python parameter is an unconstrained `int`. -/
def analizar_estructura_json (datos : Node) (prefijo : String) (max_profundidad : Int) : List String :=
  if max_profundidad = 0 then
    [prefijo ++ ": [profundidad máxima alcanzada]"]
  else
    match datos with
    | .mapping entries => analizar_dict_items entries prefijo max_profundidad
    | .sequence [] => []
    | .sequence (primero :: resto) =>
        (prefijo ++ "[0]: " ++ typeName primero)
          :: (if resto.length > 0 then
                [prefijo ++ "[1.." ++ toString resto.length ++ "]: ... ("
                   ++ toString resto.length ++ " elementos más)"]
              else [])
          ++ analizar_estructura_json primero (prefijo ++ "[0]") (max_profundidad - 1)
    | .scalar _ _ => []

/-- The `for clave, valor in datos.items()` loop of
`analizar_estructura_json` (lines 62-71), one iteration per entry. -/
def analizar_dict_items (entries : List (String × Node)) (prefijo : String) (max_profundidad : Int) : List String :=
  match entries with
  | [] => []
  | (clave, valor) :: resto =>
      let nuevo_prefijo := if prefijo = "" then clave else prefijo ++ "." ++ clave
      (match valor with
       | .scalar k rep => [nuevo_prefijo ++ ": " ++ k ++ " = " ++ rep.take 50]
       | _ =>
           (nuevo_prefijo ++ ": " ++ typeName valor ++ " (tamaño="
              ++ toString (nodeSize valor) ++ ")")
             :: analizar_estructura_json valor nuevo_prefijo (max_profundidad - 1))
        ++ analizar_dict_items resto prefijo max_profundidad
end

/-- The report lines contributed by a single `datos.items()` iteration of
`analizar_estructura_json`: the head case of `analizar_dict_items`, isolated
so that insertion-order preservation can be stated as a `map`/`join`. -/
def entryLines (clave : String) (valor : Node) (prefijo : String) (max_profundidad : Int) : List String :=
  let nuevo_prefijo := if prefijo = "" then clave else prefijo ++ "." ++ clave
  match valor with
  | .scalar k rep => [nuevo_prefijo ++ ": " ++ k ++ " = " ++ rep.take 50]
  | _ =>
      (nuevo_prefijo ++ ": " ++ typeName valor ++ " (tamaño="
         ++ toString (nodeSize valor) ++ ")")
        :: analizar_estructura_json valor nuevo_prefijo (max_profundidad - 1)

mutual
/-- The walker of `analizar_estructura_json` with the depth check removed:
identical traversal and identical report lines, but no truncation branch.
Used to state "no truncation line appears" results: when the bounded walker
agrees with `fullWalk`, no line came from the truncation branch. -/
def fullWalk (datos : Node) (prefijo : String) : List String :=
  match datos with
  | .mapping entries => fullWalkDict entries prefijo
  | .sequence [] => []
  | .sequence (primero :: resto) =>
      (prefijo ++ "[0]: " ++ typeName primero)
        :: (if resto.length > 0 then
              [prefijo ++ "[1.." ++ toString resto.length ++ "]: ... ("
                 ++ toString resto.length ++ " elementos más)"]
            else [])
        ++ fullWalk primero (prefijo ++ "[0]")
  | .scalar _ _ => []

/-- Depth-free counterpart of `analizar_dict_items`. -/
def fullWalkDict (entries : List (String × Node)) (prefijo : String) : List String :=
  match entries with
  | [] => []
  | (clave, valor) :: resto =>
      let nuevo_prefijo := if prefijo = "" then clave else prefijo ++ "." ++ clave
      (match valor with
       | .scalar k rep => [nuevo_prefijo ++ ": " ++ k ++ " = " ++ rep.take 50]
       | _ =>
           (nuevo_prefijo ++ ": " ++ typeName valor ++ " (tamaño="
              ++ toString (nodeSize valor) ++ ")")
             :: fullWalk valor nuevo_prefijo)
        ++ fullWalkDict resto prefijo
end

mutual
/-- Structural height of a tree: a `Mapping`/`Sequence` node opens one
level (even when empty), a scalar opens none. -/
def nodeHeight : Node → Nat
  | .scalar _ _ => 0
  | .mapping entries => 1 + entriesHeight entries
  | .sequence elems => 1 + elemsHeight elems

/-- Largest height among the values of a list of mapping entries. -/
def entriesHeight : List (String × Node) → Nat
  | [] => 0
  | (_, v) :: resto => max (nodeHeight v) (entriesHeight resto)

/-- Largest height among the elements of a list. -/
def elemsHeight : List Node → Nat
  | [] => 0
  | v :: resto => max (nodeHeight v) (elemsHeight resto)
end

mutual
/-- Number of `Node`s in a tree (the tree itself included). -/
def nodeCount : Node → Nat
  | .scalar _ _ => 1
  | .mapping entries => 1 + entriesCount entries
  | .sequence elems => 1 + elemsCount elems

/-- Total node count of the values of a list of mapping entries. -/
def entriesCount : List (String × Node) → Nat
  | [] => 0
  | (_, v) :: resto => nodeCount v + entriesCount resto

/-- Total node count of the elements of a list. -/
def elemsCount : List Node → Nat
  | [] => 0
  | v :: resto => nodeCount v + elemsCount resto
end

mutual
/-- True when the tree contains no `Sequence` node. -/
def seqFree : Node → Bool
  | .scalar _ _ => true
  | .mapping entries => entriesSeqFree entries
  | .sequence _ => false

/-- `seqFree` on all values of a list of mapping entries. -/
def entriesSeqFree : List (String × Node) → Bool
  | [] => true
  | (_, v) :: resto => seqFree v && entriesSeqFree resto
end

mutual
/-- Number of `Mapping`/`Sequence` boundaries from the root to each scalar
leaf, as the spec measures depth (section 3): one list entry per scalar
leaf. -/
def leafDepths : Node → List Nat
  | .scalar _ _ => [0]
  | .mapping entries => (entriesLeafDepths entries).map (fun k => k + 1)
  | .sequence elems => (elemsLeafDepths elems).map (fun k => k + 1)

/-- Leaf depths collected over the values of a list of mapping entries. -/
def entriesLeafDepths : List (String × Node) → List Nat
  | [] => []
  | (_, v) :: resto => leafDepths v ++ entriesLeafDepths resto

/-- Leaf depths collected over the elements of a list. -/
def elemsLeafDepths : List Node → List Nat
  | [] => []
  | v :: resto => leafDepths v ++ elemsLeafDepths resto
end

/-- The spec's `depth(T)`: the largest number of boundaries from the root to
a scalar leaf (0 when the tree has no scalar leaf; the root alone has depth
0). -/
def specDepth (n : Node) : Nat := (leafDepths n).foldr max 0

/-- True exactly for `Scalar` nodes (a value that is neither a `Mapping`
nor a `Sequence`). -/
def isScalarNode : Node → Bool
  | .scalar _ _ => true
  | _ => false

/-- True exactly for `Mapping` nodes. -/
def isMappingNode : Node → Bool
  | .mapping _ => true
  | _ => false

mutual
/-- Number of scalar leaves of a tree. -/
def leafCount : Node → Nat
  | .scalar _ _ => 1
  | .mapping entries => entriesLeafCount entries
  | .sequence elems => elemsLeafCount elems

/-- Scalar-leaf count over the values of a list of mapping entries. -/
def entriesLeafCount : List (String × Node) → Nat
  | [] => 0
  | (_, v) :: resto => leafCount v + entriesLeafCount resto

/-- Scalar-leaf count over the elements of a list. -/
def elemsLeafCount : List Node → Nat
  | [] => 0
  | v :: resto => leafCount v + elemsLeafCount resto
end

/-- The scalar payload of a node (its `rep` string); `""` on non-scalars. -/
def scalarVal : Node → String
  | .scalar _ rep => rep
  | _ => ""

mutual
/-- Modelled from the spec: the repository has no generic flattening
function (`json_nested_to_flat` in src/ejemplos/03_json/procesar_json.py
hardcodes field extraction for one sample file), so `flatten` follows the
spec's words (section 4.1): walk the tree depth-first; each `Scalar` leaf
contributes one entry keyed by its rendered dotted path; `Mapping` and
`Sequence` interior nodes contribute no entry; sequence elements are
indexed into the path with a bracketed zero-based index. -/
def flattenGo : Node → String → List (String × String)
  | .scalar _ rep, ruta => [(ruta, rep)]
  | .mapping entries, ruta => flattenEntries entries ruta
  | .sequence elems, ruta => flattenElems elems ruta 0

/-- Modelled from the spec: `flatten` over the entries of a `Mapping`,
extending the dotted path with each key. -/
def flattenEntries : List (String × Node) → String → List (String × String)
  | [], _ => []
  | (k, v) :: resto, ruta =>
      flattenGo v (if ruta = "" then k else ruta ++ "." ++ k) ++ flattenEntries resto ruta

/-- Modelled from the spec: `flatten` over the elements of a `Sequence`,
extending the path with a bracketed zero-based index. -/
def flattenElems : List Node → String → Nat → List (String × String)
  | [], _, _ => []
  | v :: resto, ruta, i =>
      flattenGo v (ruta ++ "[" ++ toString i ++ "]") ++ flattenElems resto ruta (i + 1)
end

/-- Modelled from the spec: `flatten(node)` starting from the empty root
path. -/
def flatten (n : Node) : List (String × String) := flattenGo n ""

mutual
/-- A value produced by `xml_to_dict`
(src/ejemplos/01_xml/procesar_xml.py, lines 147-174): either a bare
stripped text string, or a dict.  `xml_to_dict` never returns a bare
list, so dict values distinguish a plain value from an
already-coalesced list of values via `XEntry`. -/
inductive XVal where
  | text (s : String)
  | xdict (entries : List (String × XEntry))

/-- A value stored in a dict built by `xml_to_dict`: either a single value
(the `not isinstance(result[tag], list)` case) or the list a repeated tag
has been coalesced into. -/
inductive XEntry where
  | single (v : XVal)
  | coalesced (vs : List XVal)
end

/-- Python `result[k]` read on an insertion-ordered dict, as an
association-list lookup. -/
def getKey : List (String × XEntry) → String → Option XEntry
  | [], _ => none
  | (k0, v0) :: resto, k => if k0 = k then some v0 else getKey resto k

/-- Python `result[k] = v` on an insertion-ordered dict when `k` is already
present: the value is replaced in place, insertion position kept.  (On an
absent key it appends, matching Python.) -/
def setKey : List (String × XEntry) → String → XEntry → List (String × XEntry)
  | [], k, v => [(k, v)]
  | (k0, v0) :: resto, k, v =>
      if k0 = k then (k0, v) :: resto else (k0, v0) :: setKey resto k v

/-- The inline duplicate-tag coalescing of the `for child in element` loop
of `xml_to_dict` (src/ejemplos/01_xml/procesar_xml.py, lines 164-172): on a
fresh tag store the value directly; on a repeated tag wrap the stored value
into a list once, then append.  The spec names this step
`coalesceDuplicateKeys`. -/
def coalesceDuplicateKeys (result : List (String × XEntry)) (tag : String)
    (child_data : XVal) : List (String × XEntry) :=
  match getKey result tag with
  | some (XEntry.single prev) => setKey result tag (XEntry.coalesced [prev, child_data])
  | some (XEntry.coalesced vs) => setKey result tag (XEntry.coalesced (vs ++ [child_data]))
  | none => result ++ [(tag, XEntry.single child_data)]

/-- An `xml.etree.ElementTree` element as `xml_to_dict` consumes it: tag
name, attribute dict, optional text, and the child elements (`len(element)`
counts the children). -/
inductive XmlElement where
  | mk (tag : String) (attrib : List (String × String)) (text : Option String)
      (children : List XmlElement)

/-- The tag of an element. -/
def tagOf : XmlElement → String
  | .mk t _ _ _ => t

/-- Python `s.strip()`: drop leading and trailing whitespace characters. -/
def pyStripString (s : String) : String :=
  ⟨(((s.data.dropWhile Char.isWhitespace).reverse).dropWhile Char.isWhitespace).reverse⟩

/-- The Python guard `element.text and element.text.strip()` collapsed to a
string: the stripped text when `text` is present, truthy and not
whitespace-only, `""` otherwise (`None` and `""` are falsy, and a
whitespace-only string strips to `""`). -/
def pyStrip (t : Option String) : String := pyStripString (t.getD "")

mutual
/-- Embedding of `xml_to_dict(element)`
(src/ejemplos/01_xml/procesar_xml.py, lines 147-174): build the result dict
with the `@attributes` entry when attributes exist; if the element has
non-whitespace text and no children, return the bare stripped text
(discarding the dict built so far); if it has non-whitespace text and
children, add a `#text` entry; then fold the children through the
duplicate-tag coalescing loop. -/
def xml_to_dict : XmlElement → XVal
  | .mk _ attrib text children =>
      let result : List (String × XEntry) :=
        if attrib.isEmpty then []
        else [("@attributes",
               XEntry.single (XVal.xdict (attrib.map
                 (fun a => (a.1, XEntry.single (XVal.text a.2))))))]
      let t := pyStrip text
      if t = "" then
        XVal.xdict (xml_children_fold result children)
      else if children.isEmpty then
        XVal.text t
      else
        XVal.xdict (xml_children_fold
          (result ++ [("#text", XEntry.single (XVal.text t))]) children)

/-- The `for child in element` loop of `xml_to_dict`: convert each child and
insert it under its tag with duplicate-tag coalescing. -/
def xml_children_fold (result : List (String × XEntry)) : List XmlElement → List (String × XEntry)
  | [] => result
  | c :: resto => xml_children_fold (coalesceDuplicateKeys result (tagOf c) (xml_to_dict c)) resto
end

/-- The spec's flattening scenario input:
`{"person": {"name": "Ana", "tags": ["x", "y", "z"]}}`. -/
def personTree : Node :=
  Node.mapping [("person", Node.mapping
    [("name", Node.scalar "str" "Ana"),
     ("tags", Node.sequence
       [Node.scalar "str" "x", Node.scalar "str" "y", Node.scalar "str" "z"])])]

/-- C7: for a non-scalar (`Mapping` or `Sequence`) root and `maxDepth = 0`,
`describe` produces exactly one report line stating that max depth was
reached, and does not descend the subtree. -/
theorem describe_depth_zero_nonscalar (datos : Node) (prefijo : String)
    (_h : isScalarNode datos = false) :
    analizar_estructura_json datos prefijo 0 =
      [prefijo ++ ": [profundidad máxima alcanzada]"] := by
  rw [analizar_estructura_json.eq_def]
  simp

/-- Witness for C7 on a one-entry mapping root. -/
theorem describe_depth_zero_nonscalar_witness :
    analizar_estructura_json (Node.mapping [("a", Node.scalar "int" "1")]) "" 0 =
      ["" ++ ": [profundidad máxima alcanzada]"] :=
  describe_depth_zero_nonscalar (Node.mapping [("a", Node.scalar "int" "1")]) ""
    (by simp [isScalarNode])

/-- C10: a scalar root (a value that is neither a `Mapping` nor a
`Sequence`) with `maxDepth > 0` produces no report line at all; the walker
returns normally (it is a total function into `List String`, with no error
path). -/
theorem describe_scalar_root_silent (kind rep prefijo : String) (d : Int)
    (h : 0 < d) :
    analizar_estructura_json (Node.scalar kind rep) prefijo d = [] := by
  have hd : ¬d = 0 := by omega
  simp [analizar_estructura_json, hd]

/-- Witness for C10 at a concrete scalar. -/
theorem describe_scalar_root_silent_witness :
    analizar_estructura_json (Node.scalar "int" "5") "" 2 = [] :=
  describe_scalar_root_silent "int" "5" "" 2 (by norm_num)

/-- Counterexample to C4: a Python `set` value is neither a Scalar kind
(string/integer/float/boolean/null), nor a `Mapping`, nor a `Sequence`,
yet `describe` raises nothing when it meets one — the walker only tests
`isinstance(v, dict)` and `isinstance(v, list)`, so the value falls into
the scalar branch and produces a normal report line.  No
`InvalidNodeError` exists anywhere in the code, and the walker is a total
function. -/
theorem invalid_node_counterexample :
    analizar_estructura_json (Node.mapping [("k", Node.scalar "set" "set()")]) "" 3 =
      ["k: set = set()"] ∧
    analizar_estructura_json (Node.mapping [("k", Node.scalar "set" "set()")]) "" 3 ≠ [] := by
  constructor
  · simp [analizar_estructura_json, analizar_dict_items]
    rfl
  · simp [analizar_estructura_json, analizar_dict_items]

/-- C4 amended: `describe` never raises: a value of unrecognized kind (any
Python value that is neither a `dict` nor a `list`) is handled by the
scalar branch, producing a normal type-name-and-repr report line when met
inside a `Mapping`. -/
theorem unrecognized_value_as_scalar (kind rep clave prefijo : String) (d : Int)
    (h : 0 < d) :
    analizar_estructura_json (Node.mapping [(clave, Node.scalar kind rep)]) prefijo d =
      [(if prefijo = "" then clave else prefijo ++ "." ++ clave)
         ++ ": " ++ kind ++ " = " ++ rep.take 50] := by
  have hd : ¬d = 0 := by omega
  simp [analizar_estructura_json, analizar_dict_items, hd]

/-- Witness for the amended C4 at a set-typed value. -/
theorem unrecognized_value_as_scalar_witness :
    (0 : Int) < 3 ∧
    analizar_estructura_json (Node.mapping [("k", Node.scalar "set" "set()")]) "" 3 =
      [(if "" = "" then "k" else "" ++ "." ++ "k") ++ ": " ++ "set" ++ " = " ++ "set()".take 50] :=
  ⟨by norm_num, unrecognized_value_as_scalar "set" "set()" "k" "" 3 (by norm_num)⟩

/-- Counterexample to C5: with `maxDepth = -1 < 0` the walker does not fail
fast — there is no `InvalidArgumentError` in the code — and it does
traverse the root: a report line for the child entry is emitted.  (The
depth check is an equality test against 0, which a negative depth never
reaches.) -/
theorem negative_depth_counterexample :
    analizar_estructura_json (Node.mapping [("a", Node.scalar "int" "1")]) "" (-1) =
      ["a: int = 1"] ∧
    analizar_estructura_json (Node.mapping [("a", Node.scalar "int" "1")]) "" (-1) ≠ [] := by
  constructor
  · simp [analizar_estructura_json, analizar_dict_items]
    rfl
  · simp [analizar_estructura_json, analizar_dict_items]

/-- C5 amended: for `maxDepth < 0` the walker raises no error and applies
no depth truncation at all: the output equals that of the depth-free walk
`fullWalk` (the `max_profundidad == 0` test never fires, because the depth
only decreases from a negative starting point). -/
theorem negative_depth_full_walk :
    ∀ (datos : Node) (prefijo : String) (d : Int), d < 0 →
      analizar_estructura_json datos prefijo d = fullWalk datos prefijo := by
  refine analizar_estructura_json.induct
    (fun datos prefijo d => d < 0 →
      analizar_estructura_json datos prefijo d = fullWalk datos prefijo)
    (fun entries prefijo d => d < 0 →
      analizar_dict_items entries prefijo d = fullWalkDict entries prefijo)
    ?_ ?_ ?_ ?_ ?_ ?_ ?_
  · intro t prefijo h
    exact absurd h (by norm_num)
  · intro prefijo d hd entries ih h
    rw [analizar_estructura_json.eq_def, fullWalk.eq_def]
    simp only [if_neg hd]
    exact ih h
  · intro prefijo d hd h
    rw [analizar_estructura_json.eq_def, fullWalk.eq_def]
    simp only [if_neg hd]
  · intro prefijo d hd primero resto ih h
    rw [analizar_estructura_json.eq_def, fullWalk.eq_def]
    simp only [if_neg hd]
    rw [ih (by omega)]
  · intro prefijo d hd kind rep h
    rw [analizar_estructura_json.eq_def, fullWalk.eq_def]
    simp only [if_neg hd]
  · intro prefijo d h
    rw [analizar_dict_items.eq_def, fullWalkDict.eq_def]
  · intro prefijo d clave valor resto nuevo_prefijo ih_v ih_r h
    rw [analizar_dict_items.eq_def, fullWalkDict.eq_def]
    cases valor with
    | scalar k rep => simp only; rw [ih_r h]
    | mapping entries => simp only; rw [ih_v (by omega), ih_r h]
    | sequence elems => simp only; rw [ih_v (by omega), ih_r h]

/-- Witness for the amended C5 on a small mapping at depth `-1`. -/
theorem negative_depth_full_walk_witness :
    analizar_estructura_json
        (Node.mapping [("a", Node.scalar "int" "1"),
                       ("b", Node.mapping [("c", Node.scalar "str" "q")])]) "" (-1) =
      fullWalk
        (Node.mapping [("a", Node.scalar "int" "1"),
                       ("b", Node.mapping [("c", Node.scalar "str" "q")])]) "" :=
  negative_depth_full_walk
    (Node.mapping [("a", Node.scalar "int" "1"),
                   ("b", Node.mapping [("c", Node.scalar "str" "q")])]) "" (-1)
    (by norm_num)

/-- The `items()` loop output is the concatenation, in entry order, of the
lines each entry contributes: insertion order is preserved. -/
theorem analizar_dict_items_eq_flatten (entries : List (String × Node)) (prefijo : String) (d : Int) :
    analizar_dict_items entries prefijo d =
      (entries.map (fun e => entryLines e.1 e.2 prefijo d)).flatten := by
  induction entries with
  | nil => rw [analizar_dict_items.eq_def]; simp
  | cons e resto ih =>
      obtain ⟨clave, valor⟩ := e
      rw [analizar_dict_items.eq_def]
      simp only [List.map_cons, List.flatten]
      rw [ih]
      cases valor <;> simp [entryLines]

/-- C6: on a `Sequence` met with remaining depth `> 0`, only the first
element is descended into; the remaining `len - 1` elements contribute no
descended lines and are summarized by the single `(N elementos más)` line;
and within a `Mapping` the children are visited in insertion order (the
output is the in-order concatenation of each entry's lines). -/
theorem sequence_sampling_and_mapping_order :
    (∀ (prefijo : String) (d : Int) (primero : Node) (resto : List Node),
       0 < d → resto ≠ [] →
       analizar_estructura_json (Node.sequence (primero :: resto)) prefijo d =
         (prefijo ++ "[0]: " ++ typeName primero)
           :: (prefijo ++ "[1.." ++ toString resto.length ++ "]: ... ("
                 ++ toString resto.length ++ " elementos más)")
           :: analizar_estructura_json primero (prefijo ++ "[0]") (d - 1)) ∧
    (∀ (entries : List (String × Node)) (prefijo : String) (d : Int),
       0 < d →
       analizar_estructura_json (Node.mapping entries) prefijo d =
         (entries.map (fun e => entryLines e.1 e.2 prefijo d)).flatten) := by
  constructor
  · intro prefijo d primero resto hd hr
    rw [analizar_estructura_json.eq_def]
    have hd0 : ¬d = 0 := by omega
    have hl : resto.length > 0 := List.length_pos.mpr hr
    simp [hd0, hl]
  · intro entries prefijo d hd
    have hd0 : ¬d = 0 := by omega
    rw [analizar_estructura_json.eq_def]
    simp only [if_neg hd0]
    exact analizar_dict_items_eq_flatten entries prefijo d

/-- Witness for C6: a three-element sequence and a two-entry mapping. -/
theorem sequence_sampling_and_mapping_order_witness :
    (analizar_estructura_json
        (Node.sequence [Node.scalar "int" "1", Node.scalar "int" "2", Node.scalar "int" "3"])
        "xs" 2 =
      ("xs" ++ "[0]: " ++ typeName (Node.scalar "int" "1"))
        :: ("xs" ++ "[1.." ++ toString [Node.scalar "int" "2", Node.scalar "int" "3"].length
              ++ "]: ... (" ++ toString [Node.scalar "int" "2", Node.scalar "int" "3"].length
              ++ " elementos más)")
        :: analizar_estructura_json (Node.scalar "int" "1") ("xs" ++ "[0]") (2 - 1)) ∧
    (analizar_estructura_json
        (Node.mapping [("a", Node.scalar "int" "1"), ("b", Node.scalar "int" "2")]) "" 1 =
      ([("a", Node.scalar "int" "1"), ("b", Node.scalar "int" "2")].map
         (fun e => entryLines e.1 e.2 "" 1)).flatten) :=
  ⟨sequence_sampling_and_mapping_order.1 "xs" 2 (Node.scalar "int" "1")
     [Node.scalar "int" "2", Node.scalar "int" "3"] (by norm_num) (by simp),
   sequence_sampling_and_mapping_order.2
     [("a", Node.scalar "int" "1"), ("b", Node.scalar "int" "2")] "" 1 (by norm_num)⟩

/-- Counterexample to C1: for `T = [5]` the spec depth is 1 (one boundary
from the root to the scalar leaf) and `maxDepth = 1 ≥ depth(T)`, yet the
output contains a truncation line: the list branch recurses into its first
element even when that element is a scalar, burning one depth level, so the
walker enters the scalar with depth 0 and prints
`[profundidad máxima alcanzada]`.  (The root also receives no line of its
own, and sequence tails are summarized rather than visited.) -/
theorem depth_bound_truncation_counterexample :
    specDepth (Node.sequence [Node.scalar "int" "5"]) = 1 ∧
    analizar_estructura_json (Node.sequence [Node.scalar "int" "5"]) "" 1 =
      ["[0]: int", "[0]: [profundidad máxima alcanzada]"] := by
  constructor
  · simp [specDepth, leafDepths, elemsLeafDepths]
  · simp [analizar_estructura_json, typeName]

/-- On sequence-free trees, a depth budget of at least the tree height
(with at least one level available) makes the bounded walker agree with the
depth-free walk, so no line comes from the truncation branch. -/
theorem seqfree_walk_eq_full :
    ∀ (datos : Node) (prefijo : String) (d : Int),
      seqFree datos = true → (nodeHeight datos : Int) ≤ d → 1 ≤ d →
      analizar_estructura_json datos prefijo d = fullWalk datos prefijo := by
  refine analizar_estructura_json.induct
    (fun datos prefijo d => seqFree datos = true → (nodeHeight datos : Int) ≤ d → 1 ≤ d →
      analizar_estructura_json datos prefijo d = fullWalk datos prefijo)
    (fun entries prefijo d => entriesSeqFree entries = true →
      (entriesHeight entries : Int) + 1 ≤ d →
      analizar_dict_items entries prefijo d = fullWalkDict entries prefijo)
    ?_ ?_ ?_ ?_ ?_ ?_ ?_
  · intro t prefijo hsf hh h1
    exact absurd h1 (by norm_num)
  · intro prefijo d hd entries ih hsf hh h1
    rw [analizar_estructura_json.eq_def, fullWalk.eq_def]
    simp only [if_neg hd]
    refine ih ?_ ?_
    · simpa [seqFree] using hsf
    · have : nodeHeight (Node.mapping entries) = 1 + entriesHeight entries := by
        rw [nodeHeight]
      omega
  · intro prefijo d hd hsf hh h1
    simp [seqFree] at hsf
  · intro prefijo d hd primero resto ih hsf hh h1
    simp [seqFree] at hsf
  · intro prefijo d hd kind rep hsf hh h1
    rw [analizar_estructura_json.eq_def, fullWalk.eq_def]
    simp only [if_neg hd]
  · intro prefijo d hsf hh
    rw [analizar_dict_items.eq_def, fullWalkDict.eq_def]
  · intro prefijo d clave valor resto nuevo_prefijo ih_v ih_r hsf hh
    have hsf2 : seqFree valor = true ∧ entriesSeqFree resto = true := by
      simpa [entriesSeqFree, Bool.and_eq_true] using hsf
    have hh2 : entriesHeight ((clave, valor) :: resto) = max (nodeHeight valor) (entriesHeight resto) := by
      rw [entriesHeight]
    have hhr : (entriesHeight resto : Int) + 1 ≤ d := by
      have := Nat.le_max_right (nodeHeight valor) (entriesHeight resto)
      omega
    rw [analizar_dict_items.eq_def, fullWalkDict.eq_def]
    cases valor with
    | scalar k rep => simp only; rw [ih_r hsf2.2 hhr]
    | mapping entries =>
        have hhv : (nodeHeight (Node.mapping entries) : Int) ≤ d - 1 := by
          have := Nat.le_max_left (nodeHeight (Node.mapping entries)) (entriesHeight resto)
          omega
        have h1v : (1 : Int) ≤ d - 1 := by
          have : nodeHeight (Node.mapping entries) = 1 + entriesHeight entries := by
            rw [nodeHeight]
          omega
        simp only
        rw [ih_v hsf2.1 hhv h1v, ih_r hsf2.2 hhr]
    | sequence elems => simp [seqFree] at hsf2

/-- On sequence-free trees, the depth-free walk emits exactly one line per
non-root node. -/
theorem seqfree_full_walk_length :
    ∀ (datos : Node) (prefijo : String), seqFree datos = true →
      (fullWalk datos prefijo).length + 1 = nodeCount datos := by
  refine fullWalk.induct
    (fun datos prefijo => seqFree datos = true →
      (fullWalk datos prefijo).length + 1 = nodeCount datos)
    (fun entries prefijo => entriesSeqFree entries = true →
      (fullWalkDict entries prefijo).length = entriesCount entries)
    ?_ ?_ ?_ ?_ ?_ ?_
  · intro prefijo entries ih hsf
    rw [fullWalk.eq_def, nodeCount]
    simp only
    rw [ih (by simpa [seqFree] using hsf)]
    omega
  · intro prefijo hsf
    simp [seqFree] at hsf
  · intro prefijo primero resto ih hsf
    simp [seqFree] at hsf
  · intro prefijo kind rep hsf
    rw [fullWalk.eq_def, nodeCount]
    simp
  · intro prefijo hsf
    rw [fullWalkDict.eq_def, entriesCount]
    simp
  · intro prefijo clave valor resto nuevo_prefijo ih_v ih_r hsf
    have hsf2 : seqFree valor = true ∧ entriesSeqFree resto = true := by
      simpa [entriesSeqFree, Bool.and_eq_true] using hsf
    rw [fullWalkDict.eq_def, entriesCount]
    cases valor with
    | scalar k rep =>
        simp only [List.length_append, List.length_cons]
        rw [ih_r hsf2.2]
        simp [nodeCount]
    | mapping entries =>
        have hv : (fullWalk (Node.mapping entries)
            (if prefijo = "" then clave else prefijo ++ "." ++ clave)).length + 1 =
            nodeCount (Node.mapping entries) := ih_v hsf2.1
        simp only [List.length_append, List.length_cons]
        rw [ih_r hsf2.2]
        omega
    | sequence elems => simp [seqFree] at hsf2

/-- C1 amended: for `Mapping`-rooted trees that contain no `Sequence` node
and `maxDepth` at least the structural height of the tree, the bounded
walker equals the depth-free walk (so no truncation line appears, since
that walk has no truncation branch), and it emits exactly one report line
per non-root node of the tree.  The original claim fails on the code in
the presence of sequences (see the counterexample): the list branch
summarizes the tail instead of visiting it, and recursing into the first
element burns a depth level even for scalars, so a truncation line can
appear even when `maxDepth = depth(T)`; the root itself also never gets a
line. -/
theorem mapping_tree_full_visit :
    ∀ (datos : Node) (prefijo : String) (d : Int),
      isMappingNode datos = true → seqFree datos = true →
      (nodeHeight datos : Int) ≤ d →
      analizar_estructura_json datos prefijo d = fullWalk datos prefijo ∧
      (analizar_estructura_json datos prefijo d).length + 1 = nodeCount datos := by
  intro datos prefijo d hm hsf hh
  have h1 : (1 : Int) ≤ d := by
    cases datos with
    | scalar k rep => simp [isMappingNode] at hm
    | mapping entries =>
        have : nodeHeight (Node.mapping entries) = 1 + entriesHeight entries := by
          rw [nodeHeight]
        omega
    | sequence elems => simp [isMappingNode] at hm
  have heq := seqfree_walk_eq_full datos prefijo d hsf hh h1
  refine ⟨heq, ?_⟩
  rw [heq]
  exact seqfree_full_walk_length datos prefijo hsf

/-- Witness for the amended C1 on `{"a": 1, "b": {"c": "q"}}` with
`maxDepth = 2 = height`. -/
theorem mapping_tree_full_visit_witness :
    analizar_estructura_json
        (Node.mapping [("a", Node.scalar "int" "1"),
                       ("b", Node.mapping [("c", Node.scalar "str" "q")])]) "" 2 =
      fullWalk
        (Node.mapping [("a", Node.scalar "int" "1"),
                       ("b", Node.mapping [("c", Node.scalar "str" "q")])]) "" ∧
    (analizar_estructura_json
        (Node.mapping [("a", Node.scalar "int" "1"),
                       ("b", Node.mapping [("c", Node.scalar "str" "q")])]) "" 2).length + 1 =
      nodeCount
        (Node.mapping [("a", Node.scalar "int" "1"),
                       ("b", Node.mapping [("c", Node.scalar "str" "q")])]) :=
  mapping_tree_full_visit
    (Node.mapping [("a", Node.scalar "int" "1"),
                   ("b", Node.mapping [("c", Node.scalar "str" "q")])]) "" 2
    (by simp [isMappingNode])
    (by simp [seqFree, entriesSeqFree])
    (by norm_num [nodeHeight, entriesHeight])

/-- The spec-modelled `flatten` produces exactly one entry per scalar leaf
(count form), at every starting path. -/
theorem flattenGo_length :
    ∀ (datos : Node) (ruta : String), (flattenGo datos ruta).length = leafCount datos := by
  refine flattenGo.induct
    (fun datos ruta => (flattenGo datos ruta).length = leafCount datos)
    (fun elems ruta i => (flattenElems elems ruta i).length = elemsLeafCount elems)
    (fun entries ruta => (flattenEntries entries ruta).length = entriesLeafCount entries)
    ?_ ?_ ?_ ?_ ?_ ?_ ?_
  · intro kind rep ruta
    rw [flattenGo.eq_def, leafCount]
    rfl
  · intro entries ruta ih
    rw [flattenGo.eq_def, leafCount]
    exact ih
  · intro elems ruta ih
    rw [flattenGo.eq_def, leafCount]
    exact ih
  · intro ruta
    rw [flattenEntries.eq_def, entriesLeafCount]
    rfl
  · intro k v resto ruta ih_v ih_r
    rw [flattenEntries.eq_def, entriesLeafCount]
    simp only [List.length_append]
    omega
  · intro ruta i
    rw [flattenElems.eq_def, elemsLeafCount]
    rfl
  · intro v resto ruta i ih_v ih_r
    rw [flattenElems.eq_def, elemsLeafCount]
    simp only [List.length_append]
    omega

/-- On a mapping whose values are all scalars, flattening from the empty
root path keeps each key unchanged. -/
theorem flattenEntries_all_scalar :
    ∀ (entries : List (String × Node)),
      (∀ p ∈ entries, isScalarNode p.2 = true) →
      flattenEntries entries "" = entries.map (fun p => (p.1, scalarVal p.2)) := by
  intro entries h
  induction entries with
  | nil => rw [flattenEntries.eq_def]; rfl
  | cons e resto ih =>
      obtain ⟨k, v⟩ := e
      have hv : isScalarNode v = true := h (k, v) (by simp)
      cases v with
      | scalar kk rep =>
          rw [flattenEntries.eq_def]
          simp only [List.map_cons]
          rw [flattenGo.eq_def]
          simp only [if_pos rfl]
          rw [ih (fun p hp => h p (by simp [hp]))]
          rfl
      | mapping es => simp [isScalarNode] at hv
      | sequence es => simp [isScalarNode] at hv

/-- C3 (spec-modelled): `flatten` on the spec scenario
`{"person": {"name": "Ana", "tags": ["x", "y", "z"]}}` yields exactly the
dotted/bracketed flat view; on a tree of depth at most 1 consisting only of
top-level scalars it returns the direct key-to-value view (idempotence on
already-flat trees); and on every tree it returns exactly one entry per
scalar leaf. -/
theorem flatten_spec :
    (flatten personTree =
      [("person.name", "Ana"), ("person.tags[0]", "x"),
       ("person.tags[1]", "y"), ("person.tags[2]", "z")]) ∧
    (∀ (entries : List (String × Node)),
       (∀ p ∈ entries, isScalarNode p.2 = true) →
       flatten (Node.mapping entries) = entries.map (fun p => (p.1, scalarVal p.2))) ∧
    (∀ (datos : Node), (flatten datos).length = leafCount datos) := by
  refine ⟨?_, ?_, ?_⟩
  · simp [flatten, personTree, flattenGo, flattenEntries, flattenElems]
    exact ⟨rfl, rfl, rfl⟩
  · intro entries h
    rw [flatten, flattenGo.eq_def]
    exact flattenEntries_all_scalar entries h
  · intro datos
    exact flattenGo_length datos ""

/-- Witness for C3 on the already-flat tree `{"a": 1, "b": 2}`. -/
theorem flatten_spec_witness :
    flatten (Node.mapping [("a", Node.scalar "int" "1"), ("b", Node.scalar "int" "2")]) =
      [("a", Node.scalar "int" "1"), ("b", Node.scalar "int" "2")].map
        (fun p => (p.1, scalarVal p.2)) :=
  flatten_spec.2.1 [("a", Node.scalar "int" "1"), ("b", Node.scalar "int" "2")]
    (by intro p hp
        simp only [List.mem_cons] at hp
        rcases hp with h | h | h
        · rw [h]; rfl
        · rw [h]; rfl
        · simp at h)

/-- Reading back the key just written by `setKey`. -/
theorem getKey_setKey_self (r : List (String × XEntry)) (k : String) (e : XEntry) :
    getKey (setKey r k e) k = some e := by
  induction r with
  | nil => simp [setKey, getKey]
  | cons p resto ih =>
      obtain ⟨k0, v0⟩ := p
      by_cases h : k0 = k
      · simp [setKey, getKey, h]
      · simp [setKey, getKey, h, ih]

/-- Reading back a key appended to a dict that did not contain it. -/
theorem getKey_append_single (r : List (String × XEntry)) (k : String) (e : XEntry)
    (h : getKey r k = none) :
    getKey (r ++ [(k, e)]) k = some e := by
  induction r with
  | nil => simp [getKey]
  | cons p resto ih =>
      obtain ⟨k0, v0⟩ := p
      by_cases hk : k0 = k
      · simp [getKey, hk] at h
      · simp [getKey, hk] at h ⊢
        exact ih h

/-- Once a key holds a coalesced list, further occurrences append in source
order. -/
theorem coalesce_fold_coalesced (k : String) :
    ∀ (ws : List XVal) (r : List (String × XEntry)) (acc : List XVal),
      getKey r k = some (XEntry.coalesced acc) →
      getKey (ws.foldl (fun a w => coalesceDuplicateKeys a k w) r) k =
        some (XEntry.coalesced (acc ++ ws)) := by
  intro ws
  induction ws with
  | nil => intro r acc h; simpa using h
  | cons w resto ih =>
      intro r acc h
      simp only [List.foldl_cons]
      have hstep : getKey (coalesceDuplicateKeys r k w) k =
          some (XEntry.coalesced (acc ++ [w])) := by
        rw [coalesceDuplicateKeys, h]
        exact getKey_setKey_self r k _
      have := ih (coalesceDuplicateKeys r k w) (acc ++ [w]) hstep
      simpa using this

/-- C2: inserting successive values `v1..vn` under one key into a dict that
does not yet hold the key leaves, for `n = 1`, the bare value, and for
`n ≥ 2`, the single flat list `[v1, ..., vn]` in source order — never
nested pairs — so the stored entry's kind (list or not) depends only on
how many times the key occurred, whatever the values are and in whatever
order they arrive. -/
theorem coalesce_flat_by_count :
    ∀ (r : List (String × XEntry)) (k : String) (vs : List XVal),
      getKey r k = none →
      (∀ v, vs = [v] →
        getKey (vs.foldl (fun a w => coalesceDuplicateKeys a k w) r) k =
          some (XEntry.single v)) ∧
      (2 ≤ vs.length →
        getKey (vs.foldl (fun a w => coalesceDuplicateKeys a k w) r) k =
          some (XEntry.coalesced vs)) := by
  intro r k vs h
  constructor
  · intro v hv
    subst hv
    simp only [List.foldl_cons, List.foldl_nil]
    rw [coalesceDuplicateKeys, h]
    exact getKey_append_single r k _ h
  · intro hlen
    match vs with
    | v1 :: v2 :: resto =>
        simp only [List.foldl_cons]
        have h1 : getKey (coalesceDuplicateKeys r k v1) k = some (XEntry.single v1) := by
          rw [coalesceDuplicateKeys, h]
          exact getKey_append_single r k _ h
        have h2 : getKey (coalesceDuplicateKeys (coalesceDuplicateKeys r k v1) k v2) k =
            some (XEntry.coalesced [v1, v2]) := by
          rw [coalesceDuplicateKeys, h1]
          exact getKey_setKey_self _ k _
        have := coalesce_fold_coalesced k resto _ [v1, v2] h2
        simpa using this

/-- Witness for C2: three successive values 10, 20, 30 under one key yield
the flat list `[10, 20, 30]`. -/
theorem coalesce_flat_by_count_witness :
    getKey ([XVal.text "10", XVal.text "20", XVal.text "30"].foldl
        (fun a w => coalesceDuplicateKeys a "m" w) []) "m" =
      some (XEntry.coalesced [XVal.text "10", XVal.text "20", XVal.text "30"]) :=
  (coalesce_flat_by_count [] "m" [XVal.text "10", XVal.text "20", XVal.text "30"]
      (by simp [getKey])).2 (by norm_num)

/-- Writing one key leaves the others unchanged. -/
theorem getKey_setKey_ne (r : List (String × XEntry)) (k t : String) (e : XEntry)
    (h : t ≠ k) : getKey (setKey r t e) k = getKey r k := by
  induction r with
  | nil => simp [setKey, getKey, h]
  | cons p resto ih =>
      obtain ⟨k0, v0⟩ := p
      by_cases hk : k0 = t
      · subst hk
        simp [setKey, getKey, h]
      · simp [setKey, getKey, hk, ih]

/-- Appending one key leaves the others unchanged. -/
theorem getKey_append_ne (r : List (String × XEntry)) (k t : String) (e : XEntry)
    (h : t ≠ k) : getKey (r ++ [(t, e)]) k = getKey r k := by
  induction r with
  | nil => simp [getKey, h]
  | cons p resto ih =>
      obtain ⟨k0, v0⟩ := p
      by_cases hk : k0 = k
      · simp [getKey, hk]
      · simp [getKey, hk, ih]

/-- Coalescing an insertion under one tag leaves the other keys
unchanged. -/
theorem getKey_coalesce_ne (r : List (String × XEntry)) (k t : String) (v : XVal)
    (h : t ≠ k) : getKey (coalesceDuplicateKeys r t v) k = getKey r k := by
  rw [coalesceDuplicateKeys]
  cases hg : getKey r t with
  | none => exact getKey_append_ne r k t _ h
  | some e =>
      cases e with
      | single prev => exact getKey_setKey_ne r k t _ h
      | coalesced vs => exact getKey_setKey_ne r k t _ h

/-- Folding the children loop only touches the children's tags. -/
theorem getKey_children_fold_ne (k : String) :
    ∀ (cs : List XmlElement) (r : List (String × XEntry)),
      (∀ c ∈ cs, tagOf c ≠ k) →
      getKey (xml_children_fold r cs) k = getKey r k := by
  intro cs
  induction cs with
  | nil => intro r h; rw [xml_children_fold.eq_def]
  | cons c resto ih =>
      intro r h
      rw [xml_children_fold.eq_def]
      simp only
      rw [ih _ (fun x hx => h x (by simp [hx]))]
      exact getKey_coalesce_ne r k (tagOf c) _ (h c (by simp))

/-- C8: an element whose text strips to the empty string is converted
exactly like an element with no text at all; and an element with
non-whitespace text and children (none of which uses the reserved tag
`#text`) yields a dict holding the synthetic `#text` scalar entry with the
stripped text, alongside the child entries. -/
theorem xml_whitespace_text :
    (∀ (tag : String) (attrib : List (String × String)) (children : List XmlElement)
       (w : String), pyStripString w = "" →
       xml_to_dict (XmlElement.mk tag attrib (some w) children) =
         xml_to_dict (XmlElement.mk tag attrib none children)) ∧
    (∀ (tag : String) (attrib : List (String × String)) (text : Option String)
       (children : List XmlElement),
       pyStrip text ≠ "" → children ≠ [] →
       (∀ c ∈ children, tagOf c ≠ "#text") →
       ∃ entries, xml_to_dict (XmlElement.mk tag attrib text children) = XVal.xdict entries ∧
         getKey entries "#text" = some (XEntry.single (XVal.text (pyStrip text)))) := by
  constructor
  · intro tag attrib children w hw
    have h0 : pyStripString "" = "" := rfl
    rw [xml_to_dict.eq_def, xml_to_dict.eq_def]
    simp [pyStrip, hw, h0]
  · intro tag attrib text children ht hc htags
    rw [xml_to_dict.eq_def]
    simp only [if_neg ht]
    have hce : ¬(children.isEmpty = true) := by simpa [List.isEmpty_eq_true] using hc
    rw [if_neg hce]
    refine ⟨_, rfl, ?_⟩
    rw [getKey_children_fold_ne "#text" children _ htags]
    refine getKey_append_single _ _ _ ?_
    by_cases ha : attrib = []
    · simp [ha, getKey]
    · simp only [List.isEmpty_eq_true, if_neg ha]
      rfl

/-- Witness for C8: whitespace-only text behaves like no text, and mixed
content gets a `#text` entry. -/
theorem xml_whitespace_text_witness :
    (xml_to_dict (XmlElement.mk "r" [] (some " \n ") [XmlElement.mk "c" [] none []]) =
       xml_to_dict (XmlElement.mk "r" [] none [XmlElement.mk "c" [] none []])) ∧
    (∃ entries,
       xml_to_dict (XmlElement.mk "r" [] (some " hola ") [XmlElement.mk "c" [] none []]) =
         XVal.xdict entries ∧
       getKey entries "#text" =
         some (XEntry.single (XVal.text (pyStrip (some " hola "))))) :=
  ⟨xml_whitespace_text.1 "r" [] [XmlElement.mk "c" [] none []] " \n " (by decide),
   xml_whitespace_text.2 "r" [] (some " hola ") [XmlElement.mk "c" [] none []]
     (by decide) (by simp)
     (by intro c hc
         simp only [List.mem_singleton] at hc
         rw [hc]
         decide)⟩

/-- C9: an element with non-whitespace text and no child elements converts
to the bare stripped text string, not to a `Mapping`; any attributes it
carries are discarded (the `@attributes` entry built beforehand is dropped
by the early return). -/
theorem xml_bare_text_drops_attributes
    (tag : String) (attrib : List (String × String)) (text : Option String)
    (h : pyStrip text ≠ "") :
    xml_to_dict (XmlElement.mk tag attrib text []) = XVal.text (pyStrip text) := by
  rw [xml_to_dict.eq_def]
  simp [if_neg h]

/-- Witness for C9: an element with an attribute and text converts to bare
text; the attribute is gone. -/
theorem xml_bare_text_drops_attributes_witness :
    xml_to_dict (XmlElement.mk "item" [("id", "1")] (some " hola ") []) =
      XVal.text (pyStrip (some " hola ")) :=
  xml_bare_text_drops_attributes "item" [("id", "1")] (some " hola ") (by decide)
